import Mathlib

/-!
Shallow embedding of `src/knowledge-graph.ts` (KnowledgeGraphManager).

The persisted file is line-delimited JSON: each non-blank line is one JSON
record.  We model the storage as a `List Json` — one JSON value per line —
with `Json` an inductive mirroring the JSON values `JSON.parse` can produce.
Every operation of the manager is modelled as a function from the current
storage (and its input) to an `Except` of the new storage and its result;
an operation that throws before reaching `saveGraph` returns `.error` and
yields no new storage.
-/

namespace KG

/-- Shape `EntitySchema`: `{ name: string, entityType: string, observations: string[] }`. -/
structure Entity where
  name : String
  entityType : String
  observations : List String
deriving DecidableEq

/-- Shape `RelationSchema`: `{ from: string, to: string, relationType: string }`. -/
structure Relation where
  «from» : String
  «to» : String
  relationType : String
deriving DecidableEq

/-- Shape `KnowledgeGraphSchema`: `{ entities: Entity[], relations: Relation[] }`. -/
structure KnowledgeGraph where
  entities : List Entity
  relations : List Relation
deriving DecidableEq

/-- A JSON value, as produced by `JSON.parse` of one line of the memory file. -/
inductive Json where
  | null
  | bool (b : Bool)
  | num (n : Int)
  | str (s : String)
  | arr (items : List Json)
  | obj (fields : List (String × Json))

/-- Property access `j.key` on a parsed JSON value: a field of an object,
`undefined` (here `none`) otherwise. -/
def getField : Json → String → Option Json
  | .obj fields, key => fields.lookup key
  | _, _ => none

/-- Test `item.type === t` for a string tag `t`. -/
def tagIs (j : Json) (t : String) : Bool :=
  match getField j "type" with
  | some (.str s) => s == t
  | _ => false

/-- Validation `z.array(z.string()).parse`: succeeds iff every element is a string. -/
def asStringList : List Json → Option (List String)
  | [] => some []
  | .str s :: rest => (asStringList rest).map fun ss => s :: ss
  | _ => none

/-- Validation `EntitySchema.parse` on a raw record: requires string `name` and
`entityType` and an array-of-strings `observations`; unknown keys
(including the `type` discriminator) are stripped. -/
def parseEntity (j : Json) : Option Entity :=
  match getField j "name", getField j "entityType", getField j "observations" with
  | some (.str n), some (.str t), some (.arr os) =>
      (asStringList os).map fun obs => ⟨n, t, obs⟩
  | _, _, _ => none

/-- Validation `RelationSchema.parse` on a raw record. -/
def parseRelation (j : Json) : Option Relation :=
  match getField j "from", getField j "to", getField j "relationType" with
  | some (.str f), some (.str t), some (.str r) => some ⟨f, t, r⟩
  | _, _, _ => none

/-- Validation `z.array(EntitySchema).parse` over the collected raw entity records. -/
def parseEntities : List Json → Option (List Entity)
  | [] => some []
  | j :: rest =>
      match parseEntity j with
      | some e => (parseEntities rest).map fun es => e :: es
      | none => none

/-- Validation `z.array(RelationSchema).parse` over the collected raw relation records. -/
def parseRelations : List Json → Option (List Relation)
  | [] => some []
  | j :: rest =>
      match parseRelation j with
      | some r => (parseRelations rest).map fun rs => r :: rs
      | none => none

/-- The `lines.reduce` of `loadGraph`: dispatch each parsed line on its
`type` field, pushing entity-tagged records and relation-tagged records in
line order; a line with any other (or missing) tag is pushed to neither. -/
def collect : List Json → List Json × List Json
  | [] => ([], [])
  | item :: rest =>
      let (es, rs) := collect rest
      if tagIs item "entity" then (item :: es, rs)
      else if tagIs item "relation" then (es, item :: rs)
      else (es, rs)

/-- Errors an operation can surface before saving. -/
inductive KGError where
  | validation
  | notFound (name : String)
deriving DecidableEq

/-- Operation `loadGraph`: reduce the lines into raw entity/relation record lists, then
validate the whole collected graph with `KnowledgeGraphSchema.parse`.  A
missing file is the empty storage `[]`, which loads as the empty graph. -/
def loadGraph (s : List Json) : Except KGError KnowledgeGraph :=
  let (rawE, rawR) := collect s
  match parseEntities rawE, parseRelations rawR with
  | some es, some rs => .ok ⟨es, rs⟩
  | _, _ => .error .validation

/-- Serialization `JSON.stringify({ type: "entity", ...e })`. -/
def entityRecord (e : Entity) : Json :=
  .obj [("type", .str "entity"), ("name", .str e.name),
        ("entityType", .str e.entityType),
        ("observations", .arr (e.observations.map .str))]

/-- Serialization `JSON.stringify({ type: "relation", ...r })`. -/
def relationRecord (r : Relation) : Json :=
  .obj [("type", .str "relation"), ("from", .str r.«from»),
        ("to", .str r.«to»), ("relationType", .str r.relationType)]

/-- Operation `saveGraph`: one record per entity, then one per relation; the file is
rewritten in full. -/
def saveGraph (g : KnowledgeGraph) : List Json :=
  g.entities.map entityRecord ++ g.relations.map relationRecord

/-- Operation `readGraph`: returns `loadGraph()` verbatim. -/
def readGraph (s : List Json) : Except KGError KnowledgeGraph :=
  loadGraph s

/-- Matching `s.toLowerCase().includes(q.toLowerCase())`: per-character lowercasing
followed by substring containment. -/
def lowerIncludes (s q : String) : Bool :=
  decide (q.toList.map Char.toLower <:+: s.toList.map Char.toLower)

/-- The entity filter of `searchNodes`: query matches name, type, or some
observation, case-insensitively. -/
def matchesQuery (q : String) (e : Entity) : Bool :=
  lowerIncludes e.name q || lowerIncludes e.entityType q ||
    e.observations.any fun o => lowerIncludes o q

/-- Operation `searchNodes(query)`. -/
def searchNodes (s : List Json) (query : String) : Except KGError KnowledgeGraph :=
  (loadGraph s).map fun graph =>
    let filteredEntities := graph.entities.filter (matchesQuery query)
    let filteredEntityNames := filteredEntities.map Entity.name
    let filteredRelations := graph.relations.filter fun r =>
      filteredEntityNames.contains r.«from» && filteredEntityNames.contains r.«to»
    ⟨filteredEntities, filteredRelations⟩

/-- Operation `openNodes(names)`. -/
def openNodes (s : List Json) (names : List String) : Except KGError KnowledgeGraph :=
  (loadGraph s).map fun graph =>
    let filteredEntities := graph.entities.filter fun e => names.contains e.name
    let filteredEntityNames := filteredEntities.map Entity.name
    let filteredRelations := graph.relations.filter fun r =>
      filteredEntityNames.contains r.«from» && filteredEntityNames.contains r.«to»
    ⟨filteredEntities, filteredRelations⟩

/-- Operation `createEntities(entities)`: keep only input entities whose name is not
already present, append, save; returns the newly added entities. -/
def createEntities (s : List Json) (entities : List Entity) :
    Except KGError (List Json × List Entity) :=
  (loadGraph s).map fun graph =>
    let newEntities := entities.filter fun e =>
      !(graph.entities.any fun existingEntity => existingEntity.name == e.name)
    (saveGraph ⟨graph.entities ++ newEntities, graph.relations⟩, newEntities)

/-- Triple equality test used by `createRelations` and `deleteRelations`. -/
def sameTriple (a b : Relation) : Bool :=
  a.«from» == b.«from» && a.«to» == b.«to» && a.relationType == b.relationType

/-- Operation `createRelations(relations)`: keep only input relations whose exact
triple is not already present, append, save; returns the newly added ones. -/
def createRelations (s : List Json) (relations : List Relation) :
    Except KGError (List Json × List Relation) :=
  (loadGraph s).map fun graph =>
    let newRelations := relations.filter fun r =>
      !(graph.relations.any fun existingRelation => sameTriple existingRelation r)
    (saveGraph ⟨graph.entities, graph.relations ++ newRelations⟩, newRelations)

/-- One element of the `addObservations` input batch. -/
structure ObsUpdate where
  entityName : String
  contents : List String
deriving DecidableEq

/-- One element of the `addObservations` result. -/
structure ObsResult where
  entityName : String
  addedObservations : List String
deriving DecidableEq

/-- Lookup `graph.entities.find(e => e.name === name)` followed by the in-place
`entity.observations.push(...newObservations)`: mutate the first entity with
the given name, returning the updated list and the observations actually
appended; `none` when no entity has the name. -/
def addObsStep : List Entity → String → List String → Option (List Entity × List String)
  | [], _, _ => none
  | e :: rest, nm, contents =>
      if e.name == nm then
        let newObservations := contents.filter fun c => !(e.observations.contains c)
        some ({ e with observations := e.observations ++ newObservations } :: rest,
              newObservations)
      else
        match addObsStep rest nm contents with
        | some (rest', added) => some (e :: rest', added)
        | none => none

/-- The `observations.map` body of `addObservations`, run sequentially over
the batch on the in-memory graph; throws `notFound` at the first update whose
entity is missing, abandoning the rest of the batch. -/
def addObsAll (g : KnowledgeGraph) :
    List ObsUpdate → Except KGError (KnowledgeGraph × List ObsResult)
  | [] => .ok (g, [])
  | u :: rest =>
      match addObsStep g.entities u.entityName u.contents with
      | none => .error (.notFound u.entityName)
      | some (ents', added) =>
          (addObsAll ⟨ents', g.relations⟩ rest).map fun p =>
            (p.1, ⟨u.entityName, added⟩ :: p.2)

/-- Operation `addObservations(observations)`: load, apply the whole batch in memory,
save once at the end; any thrown `notFound` prevents the save. -/
def addObservations (s : List Json) (observations : List ObsUpdate) :
    Except KGError (List Json × List ObsResult) :=
  match loadGraph s with
  | .error e => .error e
  | .ok graph =>
      match addObsAll graph observations with
      | .error e => .error e
      | .ok (graph', results) => .ok (saveGraph graph', results)

/-- Operation `deleteEntities(entityNames)`: drop named entities and cascade-drop
every relation touching a named endpoint. -/
def deleteEntities (s : List Json) (entityNames : List String) :
    Except KGError (List Json) :=
  (loadGraph s).map fun graph =>
    saveGraph ⟨graph.entities.filter fun e => !(entityNames.contains e.name),
               graph.relations.filter fun r =>
                 !(entityNames.contains r.«from») && !(entityNames.contains r.«to»)⟩

/-- One element of the `deleteObservations` input. -/
structure ObsDeletion where
  entityName : String
  observations : List String
deriving DecidableEq

/-- The `deletions.forEach` body: if the first entity with the given name
exists, filter the listed observations out of it; otherwise no change. -/
def delObsStep : List Entity → String → List String → List Entity
  | [], _, _ => []
  | e :: rest, nm, obs =>
      if e.name == nm then
        { e with observations := e.observations.filter fun o => !(obs.contains o) } :: rest
      else
        e :: delObsStep rest nm obs

/-- Operation `deleteObservations(deletions)`: apply every deletion (silently skipping
missing entities), save once. -/
def deleteObservations (s : List Json) (deletions : List ObsDeletion) :
    Except KGError (List Json) :=
  (loadGraph s).map fun graph =>
    saveGraph ⟨deletions.foldl (fun ents d => delObsStep ents d.entityName d.observations)
                 graph.entities,
               graph.relations⟩

/-- Operation `deleteRelations(relations)`: drop every stored relation whose triple
matches some input triple, save. -/
def deleteRelations (s : List Json) (relations : List Relation) :
    Except KGError (List Json) :=
  (loadGraph s).map fun graph =>
    saveGraph ⟨graph.entities,
               graph.relations.filter fun r =>
                 !(relations.any fun delRelation => sameTriple r delRelation)⟩

/-- The identity key of a relation. -/
def relTriple (r : Relation) : String × String × String :=
  (r.«from», r.«to», r.relationType)

/-- The graph invariants of the data model: entity names unique, relation
triples unique. -/
def graphInv (g : KnowledgeGraph) : Prop :=
  (g.entities.map Entity.name).Nodup ∧ (g.relations.map relTriple).Nodup

instance (g : KnowledgeGraph) : Decidable (graphInv g) := by
  unfold graphInv; infer_instance

/-- Append one extra key to a stored record (no change on non-objects). -/
def addKey (k : String) (v : Json) : Json → Json
  | .obj fields => .obj (fields ++ [(k, v)])
  | j => j


theorem asStringList_map_str (os : List String) :
    asStringList (os.map Json.str) = some os := by
  induction os with
  | nil => rfl
  | cons o os ih => simp [List.map, asStringList, ih]

theorem parseEntity_entityRecord (e : Entity) :
    parseEntity (entityRecord e) = some e := by
  show (asStringList (e.observations.map Json.str)).map _ = some e
  rw [asStringList_map_str]
  rfl

theorem parseRelation_relationRecord (r : Relation) :
    parseRelation (relationRecord r) = some r := rfl

theorem tagIs_entityRecord (e : Entity) (t : String) :
    tagIs (entityRecord e) t = ("entity" == t) := rfl

theorem tagIs_relationRecord (r : Relation) (t : String) :
    tagIs (relationRecord r) t = ("relation" == t) := rfl

theorem collect_map_relationRecord (rs : List Relation) :
    collect (rs.map relationRecord) = ([], rs.map relationRecord) := by
  induction rs with
  | nil => rfl
  | cons r rs ih => simp [List.map, collect, ih, tagIs_relationRecord]

theorem collect_saveGraph (es : List Entity) (rs : List Relation) :
    collect (es.map entityRecord ++ rs.map relationRecord)
      = (es.map entityRecord, rs.map relationRecord) := by
  induction es with
  | nil => simp [collect_map_relationRecord]
  | cons e es ihe => simp [collect, ihe, tagIs_entityRecord]

theorem parseEntities_map (es : List Entity) :
    parseEntities (es.map entityRecord) = some es := by
  induction es with
  | nil => rfl
  | cons e es ih => simp [List.map, parseEntities, parseEntity_entityRecord, ih]

theorem parseRelations_map (rs : List Relation) :
    parseRelations (rs.map relationRecord) = some rs := by
  induction rs with
  | nil => rfl
  | cons r rs ih => simp [List.map, parseRelations, parseRelation_relationRecord, ih]

/-- Full-file rewrite followed by a load recovers the graph exactly. -/
theorem loadGraph_saveGraph (g : KnowledgeGraph) :
    loadGraph (saveGraph g) = .ok g := by
  unfold loadGraph saveGraph
  rw [collect_saveGraph]
  simp [parseEntities_map, parseRelations_map]


theorem addObsStep_names (nm : String) (cs : List String) :
    ∀ (ents ents' : List Entity) (add : List String),
      addObsStep ents nm cs = some (ents', add) →
      ents'.map Entity.name = ents.map Entity.name := by
  intro ents
  induction ents with
  | nil => intro ents' add h; simp [addObsStep] at h
  | cons e rest ih =>
      intro ents' add h
      unfold addObsStep at h
      split at h
      · simp only [Option.some.injEq, Prod.mk.injEq] at h
        obtain ⟨h1, _⟩ := h
        subst h1
        rfl
      · cases hcall : addObsStep rest nm cs with
        | none => rw [hcall] at h; exact absurd h (by simp)
        | some p =>
            rw [hcall] at h
            simp only [Option.some.injEq, Prod.mk.injEq] at h
            obtain ⟨h1, _⟩ := h
            subst h1
            simp [List.map, ih p.1 p.2 (by rw [hcall])]

theorem addObsStep_none (nm : String) (cs : List String) :
    ∀ ents : List Entity,
      addObsStep ents nm cs = none ↔ ∀ e ∈ ents, e.name ≠ nm := by
  intro ents
  induction ents with
  | nil => simp [addObsStep]
  | cons e rest ih =>
      unfold addObsStep
      split
      · rename_i hname
        constructor
        · intro h; exact absurd h (by simp)
        · intro h
          exact absurd (eq_of_beq hname) (h e (by simp))
      · rename_i hname
        cases hcall : addObsStep rest nm cs with
        | none =>
            simp only [iff_true_intro rfl, true_iff]
            intro e' he'
            rcases List.mem_cons.mp he' with h | h
            · subst h; intro hEq; exact hname (by simp [hEq])
            · exact (ih.mp hcall) e' h
        | some p =>
            constructor
            · intro h; exact absurd h (by simp)
            · intro h
              have : addObsStep rest nm cs = none :=
                ih.mpr fun e' he' => h e' (List.mem_cons_of_mem e he')
              rw [this] at hcall
              exact absurd hcall (by simp)

theorem delObsStep_names (nm : String) (obs : List String) :
    ∀ ents : List Entity,
      (delObsStep ents nm obs).map Entity.name = ents.map Entity.name := by
  intro ents
  induction ents with
  | nil => rfl
  | cons e rest ih =>
      unfold delObsStep
      split
      · rfl
      · simp [List.map, ih]

theorem addObsAll_ok (us : List ObsUpdate) :
    ∀ (g g' : KnowledgeGraph) (res : List ObsResult),
      addObsAll g us = .ok (g', res) →
      g'.entities.map Entity.name = g.entities.map Entity.name ∧
        g'.relations = g.relations := by
  induction us with
  | nil =>
      intro g g' res h
      simp only [addObsAll, Except.ok.injEq, Prod.mk.injEq] at h
      obtain ⟨h1, _⟩ := h
      subst h1
      exact ⟨rfl, rfl⟩
  | cons u rest ih =>
      intro g g' res h
      unfold addObsAll at h
      cases hstep : addObsStep g.entities u.entityName u.contents with
      | none => rw [hstep] at h; exact absurd h (by simp)
      | some p =>
          obtain ⟨ents', added⟩ := p
          rw [hstep] at h
          have h2 : Except.map
              (fun p => (p.1, (⟨u.entityName, added⟩ : ObsResult) :: p.2))
              (addObsAll ⟨ents', g.relations⟩ rest) = Except.ok (g', res) := h
          cases hrec : addObsAll ⟨ents', g.relations⟩ rest with
          | error e => rw [hrec] at h2; exact absurd h2 (by simp [Except.map])
          | ok q =>
              rw [hrec] at h2
              simp only [Except.map, Except.ok.injEq, Prod.mk.injEq] at h2
              obtain ⟨h1, _⟩ := h2
              subst h1
              have hnames :=
                addObsStep_names u.entityName u.contents g.entities ents' added hstep
              have hrest := ih ⟨ents', g.relations⟩ q.1 q.2 (by rw [hrec])
              exact ⟨hrest.1.trans hnames, hrest.2⟩

theorem addObsAll_missing (us : List ObsUpdate) :
    ∀ g : KnowledgeGraph,
      (∃ u ∈ us, ∀ e ∈ g.entities, e.name ≠ u.entityName) →
      ∃ n, addObsAll g us = .error (.notFound n) ∧
        ∃ u ∈ us, u.entityName = n ∧ ∀ e ∈ g.entities, e.name ≠ n := by
  induction us with
  | nil => intro g h; simp at h
  | cons u rest ih =>
      intro g h
      cases hstep : addObsStep g.entities u.entityName u.contents with
      | none =>
          refine ⟨u.entityName, ?_, u, by simp, rfl,
            (addObsStep_none u.entityName u.contents g.entities).mp hstep⟩
          unfold addObsAll
          rw [hstep]
      | some p =>
          obtain ⟨ents', added⟩ := p
          have hufound : ¬ (∀ e ∈ g.entities, e.name ≠ u.entityName) := by
            intro hall
            rw [(addObsStep_none u.entityName u.contents g.entities).mpr hall] at hstep
            exact absurd hstep (by simp)
          obtain ⟨v, hv, hvabs⟩ := h
          rcases List.mem_cons.mp hv with hvu | hvrest
          · subst hvu; exact absurd hvabs hufound
          · have hnames :=
              addObsStep_names u.entityName u.contents g.entities ents' added hstep
            have hvabs' : ∀ e ∈ (⟨ents', g.relations⟩ : KnowledgeGraph).entities,
                e.name ≠ v.entityName := by
              intro e he
              have hmem : e.name ∈ ents'.map Entity.name :=
                List.mem_map_of_mem Entity.name he
              rw [hnames] at hmem
              obtain ⟨e', he', hee'⟩ := List.mem_map.mp hmem
              rw [← hee']
              exact hvabs e' he'
            obtain ⟨n, hn, w, hw, hwn, hwabs⟩ :=
              ih ⟨ents', g.relations⟩ ⟨v, hvrest, hvabs'⟩
            refine ⟨n, ?_, w, List.mem_cons_of_mem u hw, hwn, ?_⟩
            · show (match addObsStep g.entities u.entityName u.contents with
                | none => Except.error (KGError.notFound u.entityName)
                | some (ents', added) =>
                    Except.map
                      (fun p => (p.1, (⟨u.entityName, added⟩ : ObsResult) :: p.2))
                      (addObsAll ⟨ents', g.relations⟩ rest))
                  = Except.error (KGError.notFound n)
              rw [hstep]
              show Except.map _ (addObsAll ⟨ents', g.relations⟩ rest)
                  = Except.error (KGError.notFound n)
              rw [hn]
              rfl
            · intro e he
              have hmem : e.name ∈ g.entities.map Entity.name :=
                List.mem_map_of_mem Entity.name he
              rw [← hnames] at hmem
              obtain ⟨e', he', hee'⟩ := List.mem_map.mp hmem
              rw [← hee']
              exact hwabs e' he'


theorem createEntities_ok (s : List Json) (g : KnowledgeGraph) (es : List Entity)
    (h : loadGraph s = .ok g) :
    createEntities s es
      = .ok (saveGraph ⟨g.entities
              ++ es.filter fun e => !(g.entities.any fun x => x.name == e.name),
              g.relations⟩,
             es.filter fun e => !(g.entities.any fun x => x.name == e.name)) := by
  unfold createEntities
  rw [h]
  rfl

theorem createRelations_ok (s : List Json) (g : KnowledgeGraph) (rs : List Relation)
    (h : loadGraph s = .ok g) :
    createRelations s rs
      = .ok (saveGraph ⟨g.entities,
              g.relations ++ rs.filter fun r => !(g.relations.any fun x => sameTriple x r)⟩,
             rs.filter fun r => !(g.relations.any fun x => sameTriple x r)) := by
  unfold createRelations
  rw [h]
  rfl

theorem deleteEntities_ok (s : List Json) (g : KnowledgeGraph) (ns : List String)
    (h : loadGraph s = .ok g) :
    deleteEntities s ns
      = .ok (saveGraph ⟨g.entities.filter fun e => !(ns.contains e.name),
              g.relations.filter fun r =>
                !(ns.contains r.«from») && !(ns.contains r.«to»)⟩) := by
  unfold deleteEntities
  rw [h]
  rfl

theorem deleteObservations_ok (s : List Json) (g : KnowledgeGraph) (ds : List ObsDeletion)
    (h : loadGraph s = .ok g) :
    deleteObservations s ds
      = .ok (saveGraph ⟨ds.foldl (fun ents d => delObsStep ents d.entityName d.observations)
              g.entities, g.relations⟩) := by
  unfold deleteObservations
  rw [h]
  rfl

theorem deleteRelations_ok (s : List Json) (g : KnowledgeGraph) (rs : List Relation)
    (h : loadGraph s = .ok g) :
    deleteRelations s rs
      = .ok (saveGraph ⟨g.entities,
              g.relations.filter fun r => !(rs.any fun d => sameTriple r d)⟩) := by
  unfold deleteRelations
  rw [h]
  rfl

theorem searchNodes_ok (s : List Json) (g : KnowledgeGraph) (q : String)
    (h : loadGraph s = .ok g) :
    searchNodes s q
      = .ok ⟨g.entities.filter (matchesQuery q),
             g.relations.filter fun r =>
               ((g.entities.filter (matchesQuery q)).map Entity.name).contains r.«from» &&
               ((g.entities.filter (matchesQuery q)).map Entity.name).contains r.«to»⟩ := by
  unfold searchNodes
  rw [h]
  rfl

theorem openNodes_ok (s : List Json) (g : KnowledgeGraph) (names : List String)
    (h : loadGraph s = .ok g) :
    openNodes s names
      = .ok ⟨g.entities.filter fun e => names.contains e.name,
             g.relations.filter fun r =>
               ((g.entities.filter fun e => names.contains e.name).map Entity.name).contains
                 r.«from» &&
               ((g.entities.filter fun e => names.contains e.name).map Entity.name).contains
                 r.«to»⟩ := by
  unfold openNodes
  rw [h]
  rfl

theorem addObservations_ok (s : List Json) (g : KnowledgeGraph) (us : List ObsUpdate)
    (h : loadGraph s = .ok g) (g' : KnowledgeGraph) (res : List ObsResult)
    (h2 : addObsAll g us = .ok (g', res)) :
    addObservations s us = .ok (saveGraph g', res) := by
  unfold addObservations
  rw [h]
  show (match addObsAll g us with
    | Except.error e => (Except.error e : Except KGError (List Json × List ObsResult))
    | Except.ok (graph', results) => Except.ok (saveGraph graph', results)) = _
  rw [h2]

theorem addObservations_error (s : List Json) (g : KnowledgeGraph) (us : List ObsUpdate)
    (h : loadGraph s = .ok g) (e : KGError)
    (h2 : addObsAll g us = .error e) :
    addObservations s us = .error e := by
  unfold addObservations
  rw [h]
  show (match addObsAll g us with
    | Except.error e => (Except.error e : Except KGError (List Json × List ObsResult))
    | Except.ok (graph', results) => Except.ok (saveGraph graph', results)) = _
  rw [h2]

theorem sameTriple_iff (a b : Relation) :
    sameTriple a b = true ↔ relTriple a = relTriple b := by
  simp only [sameTriple, relTriple, Bool.and_eq_true, beq_iff_eq, Prod.mk.injEq]
  tauto

theorem delObs_foldl_names (ds : List ObsDeletion) :
    ∀ ents : List Entity,
      ((ds.foldl (fun ents d => delObsStep ents d.entityName d.observations) ents).map
        Entity.name) = ents.map Entity.name := by
  induction ds with
  | nil => intro ents; rfl
  | cons d rest ih =>
      intro ents
      simp only [List.foldl_cons]
      rw [ih (delObsStep ents d.entityName d.observations)]
      exact delObsStep_names d.entityName d.observations ents


theorem map_filter_nodup {α β : Type} (f : α → β) (p : α → Bool) (l : List α)
    (h : (l.map f).Nodup) : ((l.filter p).map f).Nodup :=
  List.Nodup.sublist (List.Sublist.map f (List.filter_sublist l)) h

theorem createEntities_names_nodup (g : KnowledgeGraph) (es : List Entity)
    (hg : (g.entities.map Entity.name).Nodup) (hes : (es.map Entity.name).Nodup) :
    (((g.entities
        ++ es.filter fun e => !(g.entities.any fun x => x.name == e.name)).map
       Entity.name)).Nodup := by
  rw [List.map_append, List.nodup_append]
  refine ⟨hg, map_filter_nodup _ _ _ hes, ?_⟩
  intro a ha hb
  obtain ⟨e, he, rfl⟩ := List.mem_map.mp hb
  rw [List.mem_filter] at he
  have hcond := he.2
  simp only [Bool.not_eq_true', List.any_eq_false, beq_eq_false_iff_ne] at hcond
  obtain ⟨x, hx, hxe⟩ := List.mem_map.mp ha
  exact hcond x hx (beq_iff_eq.mpr hxe)

theorem createRelations_triples_nodup (g : KnowledgeGraph) (rs : List Relation)
    (hg : (g.relations.map relTriple).Nodup) (hrs : (rs.map relTriple).Nodup) :
    (((g.relations
        ++ rs.filter fun r => !(g.relations.any fun x => sameTriple x r)).map
       relTriple)).Nodup := by
  rw [List.map_append, List.nodup_append]
  refine ⟨hg, map_filter_nodup _ _ _ hrs, ?_⟩
  intro a ha hb
  obtain ⟨r, hr, rfl⟩ := List.mem_map.mp hb
  rw [List.mem_filter] at hr
  have hcond := hr.2
  simp only [Bool.not_eq_true', List.any_eq_false] at hcond
  obtain ⟨x, hx, hxr⟩ := List.mem_map.mp ha
  exact absurd ((sameTriple_iff x r).mpr hxr) (by simp [hcond x hx])

theorem loadGraph_eq (s : List Json) :
    loadGraph s
      = match parseEntities (collect s).1, parseRelations (collect s).2 with
        | some es, some rs => .ok ⟨es, rs⟩
        | _, _ => .error .validation := rfl

theorem tagIs_not_both (j : Json)
    (h1 : tagIs j "entity" = true) (h2 : tagIs j "relation" = true) : False := by
  unfold tagIs at h1 h2
  cases hf : getField j "type" with
  | none => rw [hf] at h1; exact absurd h1 (by simp)
  | some v =>
      cases v with
      | str t =>
          rw [hf] at h1 h2
          simp only [beq_iff_eq] at h1 h2
          subst h1
          exact absurd h2 (by decide)
      | null => rw [hf] at h1; exact absurd h1 (by simp)
      | bool b => rw [hf] at h1; exact absurd h1 (by simp)
      | num n => rw [hf] at h1; exact absurd h1 (by simp)
      | arr a => rw [hf] at h1; exact absurd h1 (by simp)
      | obj o => rw [hf] at h1; exact absurd h1 (by simp)

theorem collect_cons (a : Json) (rest : List Json) :
    collect (a :: rest)
      = if tagIs a "entity" = true then (a :: (collect rest).1, (collect rest).2)
        else if tagIs a "relation" = true then ((collect rest).1, a :: (collect rest).2)
        else ((collect rest).1, (collect rest).2) := rfl

theorem mem_collect_entity (s : List Json) (j : Json)
    (hj : j ∈ s) (ht : tagIs j "entity" = true) : j ∈ (collect s).1 := by
  induction s with
  | nil => simp at hj
  | cons a rest ih =>
      rcases List.mem_cons.mp hj with h | h
      · subst h
        simp [collect_cons, ht]
      · rw [collect_cons]
        by_cases h1 : tagIs a "entity" = true
        · simp only [h1, if_true]
          exact List.mem_cons_of_mem a (ih h)
        · by_cases h2 : tagIs a "relation" = true <;>
            simp only [h1, h2, if_true, if_false] <;> exact ih h

theorem mem_collect_relation (s : List Json) (j : Json)
    (hj : j ∈ s) (ht : tagIs j "relation" = true) : j ∈ (collect s).2 := by
  induction s with
  | nil => simp at hj
  | cons a rest ih =>
      rcases List.mem_cons.mp hj with h | h
      · subst h
        have hne : tagIs j "entity" = false := by
          cases he : tagIs j "entity"
          · rfl
          · exact absurd (tagIs_not_both j he ht) (by simp)
        simp [collect_cons, hne, ht]
      · rw [collect_cons]
        by_cases h1 : tagIs a "entity" = true
        · simp only [h1, if_true]
          exact ih h
        · by_cases h2 : tagIs a "relation" = true
          · simp only [h1, h2, if_true, if_false]
            exact List.mem_cons_of_mem a (ih h)
          · simp only [h1, h2, if_false]
            exact ih h

theorem parseEntities_none_of_mem (l : List Json) (j : Json)
    (hj : j ∈ l) (h : parseEntity j = none) : parseEntities l = none := by
  induction l with
  | nil => simp at hj
  | cons a rest ih =>
      rcases List.mem_cons.mp hj with hja | hja
      · subst hja
        unfold parseEntities
        rw [h]
      · unfold parseEntities
        cases parseEntity a with
        | none => rfl
        | some e => rw [ih hja]; rfl

theorem parseRelations_none_of_mem (l : List Json) (j : Json)
    (hj : j ∈ l) (h : parseRelation j = none) : parseRelations l = none := by
  induction l with
  | nil => simp at hj
  | cons a rest ih =>
      rcases List.mem_cons.mp hj with hja | hja
      · subst hja
        unfold parseRelations
        rw [h]
      · unfold parseRelations
        cases parseRelation a with
        | none => rfl
        | some r => rw [ih hja]; rfl

/-- C1: for every shape-valid graph `g`, `saveGraph(g)` followed by
`loadGraph()` returns a graph with exactly the same entities and exactly the
same relations as `g` (equality as sets, hence also keyed by name and by
triple). -/
theorem saveGraph_loadGraph_roundtrip (g : KnowledgeGraph) :
    ∃ g', loadGraph (saveGraph g) = .ok g' ∧
      (∀ e, e ∈ g'.entities ↔ e ∈ g.entities) ∧
      (∀ r, r ∈ g'.relations ↔ r ∈ g.relations) :=
  ⟨g, loadGraph_saveGraph g, fun _ => Iff.rfl, fun _ => Iff.rfl⟩

/-- C2: when some update in an `addObservations` batch names an entity absent
from the loaded graph, the whole call fails with a not-found error carrying
such an absent name, no save occurs, and a subsequent `readGraph` still
returns the pre-call graph. -/
theorem addObservations_missing_entity_fails (s : List Json) (g : KnowledgeGraph)
    (us : List ObsUpdate) (h : loadGraph s = .ok g)
    (hmiss : ∃ u ∈ us, ∀ e ∈ g.entities, e.name ≠ u.entityName) :
    ∃ n, addObservations s us = .error (.notFound n) ∧
      (∃ u ∈ us, u.entityName = n ∧ ∀ e ∈ g.entities, e.name ≠ n) ∧
      readGraph s = .ok g := by
  obtain ⟨n, hn, hu⟩ := addObsAll_missing us g hmiss
  exact ⟨n, addObservations_error s g us h _ hn, hu, h⟩

/-- Witness for C2: on the empty store, adding an observation to the missing
entity `Ghost` fails with `notFound` and the store still reads back empty. -/
theorem addObservations_missing_entity_fails_witness :
    ∃ n, addObservations ([] : List Json) [⟨"Ghost", ["x"]⟩]
        = .error (.notFound n) ∧
      (∃ u ∈ [(⟨"Ghost", ["x"]⟩ : ObsUpdate)], u.entityName = n ∧
        ∀ e ∈ (⟨[], []⟩ : KnowledgeGraph).entities, e.name ≠ n) ∧
      readGraph ([] : List Json) = .ok ⟨[], []⟩ :=
  addObservations_missing_entity_fails [] ⟨[], []⟩ [⟨"Ghost", ["x"]⟩] rfl
    ⟨⟨"Ghost", ["x"]⟩, by simp, by simp⟩

/-- Counterexample to C3: the non-blank record `{"type":"banana"}`
deserializes to neither an entity-tagged nor a relation-tagged shape, yet
`loadGraph` succeeds and silently omits it instead of failing the load. -/
theorem loadGraph_skips_unknown_tag :
    parseEntity (Json.obj [("type", Json.str "banana")]) = none ∧
    parseRelation (Json.obj [("type", Json.str "banana")]) = none ∧
    loadGraph [Json.obj [("type", Json.str "banana")]] = .ok ⟨[], []⟩ :=
  ⟨rfl, rfl, rfl⟩

/-- C3 (amended): a record tagged `"entity"` or `"relation"` that fails the
corresponding shape validation fails the whole load with a validation error;
records with any other (or missing) tag are silently skipped instead. -/
theorem loadGraph_tagged_invalid_fails (s : List Json)
    (h : (∃ j ∈ s, tagIs j "entity" = true ∧ parseEntity j = none) ∨
         (∃ j ∈ s, tagIs j "relation" = true ∧ parseRelation j = none)) :
    loadGraph s = .error .validation := by
  rw [loadGraph_eq]
  rcases h with ⟨j, hj, ht, hp⟩ | ⟨j, hj, ht, hp⟩
  · rw [parseEntities_none_of_mem (collect s).1 j (mem_collect_entity s j hj ht) hp]
  · rw [parseRelations_none_of_mem (collect s).2 j (mem_collect_relation s j hj ht) hp]
    cases parseEntities (collect s).1 <;> rfl

/-- Witness for the amended C3: an entity-tagged record missing its required
fields fails the whole load. -/
theorem loadGraph_tagged_invalid_fails_witness :
    loadGraph [Json.obj [("type", Json.str "entity")]] = .error .validation :=
  loadGraph_tagged_invalid_fails [Json.obj [("type", Json.str "entity")]]
    (Or.inl ⟨Json.obj [("type", Json.str "entity")], by simp, rfl, rfl⟩)


/-- Counterexample to C4: starting from the empty graph (which satisfies the
invariants), `createEntities` with two input entities sharing the fresh name
`A` appends both, so the saved graph violates entity-name uniqueness. -/
theorem createEntities_duplicate_input_breaks_uniqueness :
    graphInv ⟨[], []⟩ ∧
    createEntities ([] : List Json) [⟨"A", "t", []⟩, ⟨"A", "u", []⟩]
      = .ok (saveGraph ⟨[⟨"A", "t", []⟩, ⟨"A", "u", []⟩], []⟩,
             [⟨"A", "t", []⟩, ⟨"A", "u", []⟩]) ∧
    loadGraph (saveGraph ⟨[⟨"A", "t", []⟩, ⟨"A", "u", []⟩], []⟩)
      = .ok ⟨[⟨"A", "t", []⟩, ⟨"A", "u", []⟩], []⟩ ∧
    ¬ graphInv ⟨[⟨"A", "t", []⟩, ⟨"A", "u", []⟩], []⟩ :=
  ⟨by decide, rfl, rfl, by decide⟩

/-- C4 (amended): every mutation preserves the uniqueness invariants provided
the input's own keys are duplicate-free — names for `createEntities`, triples
for `createRelations`; the observation and deletion operations preserve them
for every input.  (Without the duplicate-free proviso the two create
operations can append two copies of a not-yet-present key.) -/
theorem mutations_preserve_invariants (s : List Json) (g : KnowledgeGraph)
    (h : loadGraph s = .ok g) (hg : graphInv g) :
    (∀ es, (es.map Entity.name).Nodup →
      ∀ s' r, createEntities s es = .ok (s', r) →
        ∃ g', loadGraph s' = .ok g' ∧ graphInv g') ∧
    (∀ rs, (rs.map relTriple).Nodup →
      ∀ s' r, createRelations s rs = .ok (s', r) →
        ∃ g', loadGraph s' = .ok g' ∧ graphInv g') ∧
    (∀ us s' r, addObservations s us = .ok (s', r) →
        ∃ g', loadGraph s' = .ok g' ∧ graphInv g') ∧
    (∀ ns s', deleteEntities s ns = .ok s' →
        ∃ g', loadGraph s' = .ok g' ∧ graphInv g') ∧
    (∀ ds s', deleteObservations s ds = .ok s' →
        ∃ g', loadGraph s' = .ok g' ∧ graphInv g') ∧
    (∀ rs s', deleteRelations s rs = .ok s' →
        ∃ g', loadGraph s' = .ok g' ∧ graphInv g') := by
  refine ⟨?_, ?_, ?_, ?_, ?_, ?_⟩
  · intro es hes s' r hcall
    rw [createEntities_ok s g es h] at hcall
    simp only [Except.ok.injEq, Prod.mk.injEq] at hcall
    obtain ⟨h1, _⟩ := hcall
    subst h1
    refine ⟨_, loadGraph_saveGraph _, ?_, hg.2⟩
    exact createEntities_names_nodup g es hg.1 hes
  · intro rs hrs s' r hcall
    rw [createRelations_ok s g rs h] at hcall
    simp only [Except.ok.injEq, Prod.mk.injEq] at hcall
    obtain ⟨h1, _⟩ := hcall
    subst h1
    refine ⟨_, loadGraph_saveGraph _, hg.1, ?_⟩
    exact createRelations_triples_nodup g rs hg.2 hrs
  · intro us s' r hcall
    cases haa : addObsAll g us with
    | error e =>
        rw [addObservations_error s g us h e haa] at hcall
        exact absurd hcall (by simp)
    | ok p =>
        rw [addObservations_ok s g us h p.1 p.2 (by rw [haa])] at hcall
        simp only [Except.ok.injEq, Prod.mk.injEq] at hcall
        obtain ⟨h1, _⟩ := hcall
        subst h1
        refine ⟨_, loadGraph_saveGraph _, ?_, ?_⟩
        · rw [(addObsAll_ok us g p.1 p.2 (by rw [haa])).1]
          exact hg.1
        · rw [(addObsAll_ok us g p.1 p.2 (by rw [haa])).2]
          exact hg.2
  · intro ns s' hcall
    rw [deleteEntities_ok s g ns h] at hcall
    simp only [Except.ok.injEq] at hcall
    subst hcall
    exact ⟨_, loadGraph_saveGraph _,
      map_filter_nodup _ _ _ hg.1, map_filter_nodup _ _ _ hg.2⟩
  · intro ds s' hcall
    rw [deleteObservations_ok s g ds h] at hcall
    simp only [Except.ok.injEq] at hcall
    subst hcall
    refine ⟨_, loadGraph_saveGraph _, ?_, hg.2⟩
    rw [show (⟨ds.foldl (fun ents d => delObsStep ents d.entityName d.observations)
        g.entities, g.relations⟩ : KnowledgeGraph).entities
      = ds.foldl (fun ents d => delObsStep ents d.entityName d.observations) g.entities
      from rfl, delObs_foldl_names ds g.entities]
    exact hg.1
  · intro rs s' hcall
    rw [deleteRelations_ok s g rs h] at hcall
    simp only [Except.ok.injEq] at hcall
    subst hcall
    exact ⟨_, loadGraph_saveGraph _, hg.1, map_filter_nodup _ _ _ hg.2⟩

/-- Witness for the amended C4: on the empty store, creating one entity named
`A` yields a stored graph that still satisfies both uniqueness invariants. -/
theorem mutations_preserve_invariants_witness :
    ∃ g', loadGraph (saveGraph ⟨[⟨"A", "t", []⟩], []⟩) = .ok g' ∧ graphInv g' :=
  (mutations_preserve_invariants [] ⟨[], []⟩ rfl (by decide)).1
    [⟨"A", "t", []⟩] (by decide)
    (saveGraph ⟨[⟨"A", "t", []⟩], []⟩) [⟨"A", "t", []⟩] rfl


theorem countP_name_eq (l : List Entity) (nm : String) :
    l.countP (fun x => x.name == nm) = (l.map Entity.name).count nm := by
  rw [List.count, List.countP_map]
  rfl

theorem any_name_eq_true (g : KnowledgeGraph) (e : Entity)
    (hmem : e.name ∈ g.entities.map Entity.name) :
    (g.entities.any fun x => x.name == e.name) = true := by
  rw [List.any_eq_true]
  obtain ⟨x, hx, hxe⟩ := List.mem_map.mp hmem
  exact ⟨x, hx, beq_iff_eq.mpr hxe⟩

theorem filter_fresh_nil (g : KnowledgeGraph) (e : Entity)
    (hmem : e.name ∈ g.entities.map Entity.name) :
    ([e].filter fun e' => !(g.entities.any fun x => x.name == e'.name)) = [] := by
  simp [List.filter, any_name_eq_true g e hmem]

theorem createEntities_existing (s₁ : List Json) (g : KnowledgeGraph) (e : Entity)
    (h₁ : loadGraph s₁ = .ok g) (hmem : e.name ∈ g.entities.map Entity.name) :
    createEntities s₁ [e] = .ok (saveGraph g, []) := by
  rw [createEntities_ok s₁ g [e] h₁, filter_fresh_nil g e hmem]
  rw [show (⟨g.entities ++ [], g.relations⟩ : KnowledgeGraph) = g by rw [List.append_nil]]

/-- C5: `createEntities` appends exactly the input entities whose name is not
already present (returning exactly those, leaving existing entities and all
relations untouched), and is idempotent: a second call with the same entity
returns nothing new and leaves the entity present exactly once. -/
theorem createEntities_spec (s : List Json) (g : KnowledgeGraph) (es : List Entity)
    (h : loadGraph s = .ok g) :
    (∃ s', createEntities s es
        = .ok (s', es.filter fun e => !(g.entities.any fun x => x.name == e.name)) ∧
      loadGraph s'
        = .ok ⟨g.entities
                 ++ (es.filter fun e => !(g.entities.any fun x => x.name == e.name)),
               g.relations⟩) ∧
    (∀ e : Entity, (g.entities.map Entity.name).Nodup →
      ∀ s₁ r₁, createEntities s [e] = .ok (s₁, r₁) →
        ∃ s₂ g₂, createEntities s₁ [e] = .ok (s₂, ([] : List Entity)) ∧
          loadGraph s₂ = .ok g₂ ∧
          g₂.entities.countP (fun x => x.name == e.name) = 1) := by
  constructor
  · exact ⟨_, createEntities_ok s g es h, loadGraph_saveGraph _⟩
  · intro e hnd s₁ r₁ hcall
    rw [createEntities_ok s g [e] h] at hcall
    simp only [Except.ok.injEq, Prod.mk.injEq] at hcall
    obtain ⟨h1, _⟩ := hcall
    subst h1
    have hmem : e.name ∈
        ((⟨g.entities
            ++ [e].filter fun e' => !(g.entities.any fun x => x.name == e'.name),
           g.relations⟩ : KnowledgeGraph).entities.map Entity.name) := by
      show e.name ∈
        ((g.entities
          ++ [e].filter fun e' => !(g.entities.any fun x => x.name == e'.name)).map
          Entity.name)
      rw [List.map_append, List.mem_append]
      by_cases hin : (g.entities.any fun x => x.name == e.name) = true
      · left
        rw [List.any_eq_true] at hin
        obtain ⟨x, hx, hxe⟩ := hin
        exact List.mem_map.mpr ⟨x, hx, eq_of_beq hxe⟩
      · right
        have hf : ([e].filter fun e' => !(g.entities.any fun x => x.name == e'.name))
            = [e] := by
          rw [Bool.not_eq_true] at hin
          simp only [List.filter]
          rw [hin]
          rfl
        rw [hf]
        simp
    refine ⟨_, _, createEntities_existing _ _ e (loadGraph_saveGraph _) hmem,
      loadGraph_saveGraph _, ?_⟩
    show ((g.entities
        ++ [e].filter fun e' => !(g.entities.any fun x => x.name == e'.name)).countP
        fun x => x.name == e.name) = 1
    rw [List.countP_append]
    by_cases hin : (g.entities.any fun x => x.name == e.name) = true
    · have hf : ([e].filter fun e' => !(g.entities.any fun x => x.name == e'.name))
          = [] := by
        simp [List.filter, hin]
      rw [hf]
      have hle : (g.entities.map Entity.name).count e.name ≤ 1 :=
        List.nodup_iff_count_le_one.mp hnd e.name
      have hmm : e.name ∈ g.entities.map Entity.name := by
        rw [List.any_eq_true] at hin
        obtain ⟨x, hx, hxe⟩ := hin
        exact List.mem_map.mpr ⟨x, hx, eq_of_beq hxe⟩
      have hge : 0 < (g.entities.map Entity.name).count e.name :=
        List.count_pos_iff.mpr hmm
      rw [countP_name_eq]
      simp only [List.countP_nil]
      omega
    · have hf : ([e].filter fun e' => !(g.entities.any fun x => x.name == e'.name))
          = [e] := by
        simp only [List.filter]
        rw [Bool.eq_false_iff.mpr hin]
        rfl
      rw [hf]
      have h0 : (g.entities.countP fun x => x.name == e.name) = 0 := by
        rw [List.countP_eq_zero]
        intro x hx hbeq
        exact hin (List.any_eq_true.mpr ⟨x, hx, hbeq⟩)
      rw [h0]
      simp [List.countP_cons]

/-- Witness for C5: creating `Alice` twice on an empty store; the second call
returns no newly added entities and `Alice` is stored exactly once. -/
theorem createEntities_spec_witness :
    ∃ s₂ g₂, createEntities
        (saveGraph ⟨[⟨"Alice", "person", ["likes tea"]⟩], []⟩)
        [⟨"Alice", "person", ["likes tea"]⟩] = .ok (s₂, ([] : List Entity)) ∧
      loadGraph s₂ = .ok g₂ ∧
      g₂.entities.countP (fun x => x.name == "Alice") = 1 :=
  (createEntities_spec [] ⟨[], []⟩ [⟨"Alice", "person", ["likes tea"]⟩] rfl).2
    ⟨"Alice", "person", ["likes tea"]⟩ (by decide)
    (saveGraph ⟨[⟨"Alice", "person", ["likes tea"]⟩], []⟩)
    [⟨"Alice", "person", ["likes tea"]⟩] rfl


/-- C6: `createRelations` appends exactly the input relations whose triple is
not already stored and returns them; deduplication is against existing state
only, so a fresh triple given twice in one input is appended twice, while a
triple already stored once is skipped and stays stored exactly once. -/
theorem createRelations_spec (s : List Json) (g : KnowledgeGraph) (rs : List Relation)
    (h : loadGraph s = .ok g) :
    (∃ s', createRelations s rs
        = .ok (s', rs.filter fun r => !(g.relations.any fun x => sameTriple x r)) ∧
      loadGraph s'
        = .ok ⟨g.entities,
               g.relations
                 ++ rs.filter fun r => !(g.relations.any fun x => sameTriple x r)⟩) ∧
    (∀ r : Relation, (g.relations.any fun x => sameTriple x r) = false →
      ∃ s', createRelations s [r, r] = .ok (s', [r, r]) ∧
        loadGraph s' = .ok ⟨g.entities, g.relations ++ [r, r]⟩) ∧
    (∀ r : Relation, (g.relations.countP fun x => sameTriple x r) = 1 →
      ∃ s' g', createRelations s [r] = .ok (s', ([] : List Relation)) ∧
        loadGraph s' = .ok g' ∧
        (g'.relations.countP fun x => sameTriple x r) = 1) := by
  refine ⟨⟨_, createRelations_ok s g rs h, loadGraph_saveGraph _⟩, ?_, ?_⟩
  · intro r hfresh
    have hf : ([r, r].filter fun r' => !(g.relations.any fun x => sameTriple x r'))
        = [r, r] := by
      simp only [List.filter]
      rw [hfresh]
      rfl
    refine ⟨_, ?_, loadGraph_saveGraph _⟩
    rw [createRelations_ok s g [r, r] h, hf]
  · intro r hcp
    have hany : (g.relations.any fun x => sameTriple x r) = true := by
      rw [List.any_eq_true]
      have hpos : 0 < g.relations.countP fun x => sameTriple x r := by omega
      exact List.countP_pos_iff.mp hpos
    have hf : ([r].filter fun r' => !(g.relations.any fun x => sameTriple x r'))
        = [] := by
      simp [List.filter, hany]
    refine ⟨saveGraph ⟨g.entities, g.relations ++ []⟩, ⟨g.entities, g.relations ++ []⟩,
      ?_, loadGraph_saveGraph _, ?_⟩
    · rw [createRelations_ok s g [r] h, hf]
    · show ((g.relations ++ []).countP fun x => sameTriple x r) = 1
      rw [List.append_nil]
      exact hcp

/-- Witness for C6: a store holding one `A -knows-> B` relation; creating the
same triple again returns `[]` and the store still holds it exactly once. -/
theorem createRelations_spec_witness :
    ∃ s' g', createRelations (saveGraph ⟨[], [⟨"A", "B", "knows"⟩]⟩)
        [⟨"A", "B", "knows"⟩] = .ok (s', ([] : List Relation)) ∧
      loadGraph s' = .ok g' ∧
      (g'.relations.countP fun x => sameTriple x ⟨"A", "B", "knows"⟩) = 1 :=
  (createRelations_spec (saveGraph ⟨[], [⟨"A", "B", "knows"⟩]⟩)
      ⟨[], [⟨"A", "B", "knows"⟩]⟩ [] (loadGraph_saveGraph _)).2.2
    ⟨"A", "B", "knows"⟩ (by decide)

/-- C7: `deleteEntities` removes exactly the entities whose name is listed and
cascades to every relation whose `from` or `to` endpoint is listed, silently
ignoring missing names; it always succeeds and persists, and afterwards no
surviving relation references a listed name. -/
theorem deleteEntities_spec (s : List Json) (g : KnowledgeGraph) (ns : List String)
    (h : loadGraph s = .ok g) :
    ∃ s' g', deleteEntities s ns = .ok s' ∧ loadGraph s' = .ok g' ∧
      g'.entities = g.entities.filter (fun e => !(ns.contains e.name)) ∧
      g'.relations = g.relations.filter (fun r =>
        !(ns.contains r.«from») && !(ns.contains r.«to»)) ∧
      ∀ r ∈ g'.relations, r.«from» ∉ ns ∧ r.«to» ∉ ns := by
  refine ⟨_, _, deleteEntities_ok s g ns h, loadGraph_saveGraph _, rfl, rfl, ?_⟩
  intro r hr
  rw [List.mem_filter] at hr
  have hc := hr.2
  simp only [Bool.and_eq_true, Bool.not_eq_true'] at hc
  constructor
  · intro hmem
    have hx := hc.1
    simp [hmem] at hx
  · intro hmem
    have hx := hc.2
    simp [hmem] at hx

/-- Witness for C7: deleting `A` from a store with entities `A`, `B` and
relations touching `A` removes `A` and both relations touching it. -/
theorem deleteEntities_spec_witness :
    ∃ s' g', deleteEntities
        (saveGraph ⟨[⟨"A", "t", []⟩, ⟨"B", "t", []⟩],
                    [⟨"A", "B", "r"⟩, ⟨"B", "A", "r"⟩, ⟨"B", "B", "r"⟩]⟩)
        ["A"] = .ok s' ∧
      loadGraph s' = .ok g' ∧
      g'.entities = ([⟨"A", "t", []⟩, ⟨"B", "t", []⟩] : List Entity).filter
        (fun e => !((["A"] : List String).contains e.name)) ∧
      g'.relations = ([⟨"A", "B", "r"⟩, ⟨"B", "A", "r"⟩, ⟨"B", "B", "r"⟩] :
          List Relation).filter
        (fun r => !((["A"] : List String).contains r.«from») &&
          !((["A"] : List String).contains r.«to»)) ∧
      ∀ r ∈ g'.relations, r.«from» ∉ (["A"] : List String) ∧
        r.«to» ∉ (["A"] : List String) :=
  deleteEntities_spec
    (saveGraph ⟨[⟨"A", "t", []⟩, ⟨"B", "t", []⟩],
                [⟨"A", "B", "r"⟩, ⟨"B", "A", "r"⟩, ⟨"B", "B", "r"⟩]⟩)
    ⟨[⟨"A", "t", []⟩, ⟨"B", "t", []⟩],
     [⟨"A", "B", "r"⟩, ⟨"B", "A", "r"⟩, ⟨"B", "B", "r"⟩]⟩
    ["A"] (loadGraph_saveGraph _)


theorem matchesQuery_empty (e : Entity) : matchesQuery "" e = true := by
  have hinc : lowerIncludes e.name "" = true := by
    unfold lowerIncludes
    exact decide_eq_true List.nil_infix
  unfold matchesQuery
  rw [hinc]
  rfl

/-- C8: `searchNodes(q)` returns exactly the entities matched
case-insensitively by substring in name, type, or some observation, plus
exactly those relations whose endpoints both name a returned entity; hence
every returned relation has both endpoints among the returned entities, and
the empty query keeps every entity. -/
theorem searchNodes_spec (s : List Json) (g : KnowledgeGraph) (q : String)
    (h : loadGraph s = .ok g) :
    ∃ g', searchNodes s q = .ok g' ∧
      (∀ e, e ∈ g'.entities ↔ e ∈ g.entities ∧ matchesQuery q e = true) ∧
      (∀ r, r ∈ g'.relations ↔ r ∈ g.relations ∧
        r.«from» ∈ g'.entities.map Entity.name ∧
        r.«to» ∈ g'.entities.map Entity.name) ∧
      (∀ r ∈ g'.relations,
        (∃ e ∈ g'.entities, e.name = r.«from») ∧
        ∃ e ∈ g'.entities, e.name = r.«to») ∧
      (q = "" → ∀ e ∈ g.entities, e ∈ g'.entities) := by
  refine ⟨_, searchNodes_ok s g q h, ?_, ?_, ?_, ?_⟩
  · intro e
    exact List.mem_filter
  · intro r
    rw [List.mem_filter]
    constructor
    · rintro ⟨hmem, hcond⟩
      rw [Bool.and_eq_true] at hcond
      exact ⟨hmem, List.elem_iff.mp hcond.1, List.elem_iff.mp hcond.2⟩
    · rintro ⟨hmem, h1, h2⟩
      refine ⟨hmem, ?_⟩
      rw [Bool.and_eq_true]
      exact ⟨List.elem_iff.mpr h1, List.elem_iff.mpr h2⟩
  · intro r hr
    rw [List.mem_filter, Bool.and_eq_true] at hr
    obtain ⟨_, hc1, hc2⟩ := hr
    constructor
    · obtain ⟨e, he, hname⟩ := List.mem_map.mp (List.elem_iff.mp hc1)
      exact ⟨e, he, hname⟩
    · obtain ⟨e, he, hname⟩ := List.mem_map.mp (List.elem_iff.mp hc2)
      exact ⟨e, he, hname⟩
  · intro hq e he
    subst hq
    exact List.mem_filter.mpr ⟨he, matchesQuery_empty e⟩

/-- Witness for C8: searching `al` in a store with `Alice` and `Bob` and one
`Alice -> Bob` relation; the conclusions of the search specification hold. -/
theorem searchNodes_spec_witness :
    ∃ g', searchNodes (saveGraph ⟨[⟨"Alice", "person", []⟩, ⟨"Bob", "person", []⟩],
          [⟨"Alice", "Bob", "knows"⟩]⟩) "al" = .ok g' ∧
      (∀ e, e ∈ g'.entities ↔
        e ∈ ([⟨"Alice", "person", []⟩, ⟨"Bob", "person", []⟩] : List Entity) ∧
        matchesQuery "al" e = true) ∧
      (∀ r, r ∈ g'.relations ↔
        r ∈ ([⟨"Alice", "Bob", "knows"⟩] : List Relation) ∧
        r.«from» ∈ g'.entities.map Entity.name ∧
        r.«to» ∈ g'.entities.map Entity.name) ∧
      (∀ r ∈ g'.relations,
        (∃ e ∈ g'.entities, e.name = r.«from») ∧
        ∃ e ∈ g'.entities, e.name = r.«to») ∧
      ("al" = "" → ∀ e ∈ ([⟨"Alice", "person", []⟩, ⟨"Bob", "person", []⟩] :
          List Entity), e ∈ g'.entities) :=
  searchNodes_spec
    (saveGraph ⟨[⟨"Alice", "person", []⟩, ⟨"Bob", "person", []⟩],
                [⟨"Alice", "Bob", "knows"⟩]⟩)
    ⟨[⟨"Alice", "person", []⟩, ⟨"Bob", "person", []⟩], [⟨"Alice", "Bob", "knows"⟩]⟩
    "al" (loadGraph_saveGraph _)

/-- Counterexample to C9's contrast clause: on a store holding one dangling
relation and no entities, `searchNodes("")` drops the relation, so it does
not return the full graph that `readGraph` returns. -/
theorem searchNodes_empty_not_full_graph :
    readGraph [relationRecord ⟨"A", "B", "likes"⟩]
      = .ok ⟨[], [⟨"A", "B", "likes"⟩]⟩ ∧
    searchNodes [relationRecord ⟨"A", "B", "likes"⟩] "" = .ok ⟨[], []⟩ ∧
    (⟨[], []⟩ : KnowledgeGraph) ≠ ⟨[], [⟨"A", "B", "likes"⟩]⟩ :=
  ⟨rfl, rfl, by decide⟩

/-- C9 (amended): `openNodes` with an empty names list returns the empty
graph, because an entity is kept only if its name is a member of the given
list — unlike `searchNodes` with an empty query, which keeps every entity
(and those relations whose endpoints both name an entity). -/
theorem openNodes_empty_names (s : List Json) (g : KnowledgeGraph)
    (h : loadGraph s = .ok g) :
    openNodes s [] = .ok ⟨[], []⟩ ∧
    ∃ g', searchNodes s "" = .ok g' ∧ g'.entities = g.entities := by
  constructor
  · rw [openNodes_ok s g [] h]
    have he : (g.entities.filter fun e => (([] : List String)).contains e.name)
        = [] := by
      rw [List.filter_eq_nil_iff]
      intro e _
      simp
    rw [he]
    simp
  · refine ⟨_, searchNodes_ok s g "" h, ?_⟩
    show g.entities.filter (matchesQuery "") = g.entities
    rw [List.filter_eq_self]
    intro e _
    exact matchesQuery_empty e

/-- Witness for the amended C9: a store with one entity `X`; `openNodes([])`
returns the empty graph while `searchNodes("")` keeps `X`. -/
theorem openNodes_empty_names_witness :
    openNodes (saveGraph ⟨[⟨"X", "t", []⟩], []⟩) [] = .ok ⟨[], []⟩ ∧
    ∃ g', searchNodes (saveGraph ⟨[⟨"X", "t", []⟩], []⟩) "" = .ok g' ∧
      g'.entities = [⟨"X", "t", []⟩] :=
  openNodes_empty_names (saveGraph ⟨[⟨"X", "t", []⟩], []⟩) ⟨[⟨"X", "t", []⟩], []⟩
    (loadGraph_saveGraph _)


theorem lookup_append_ne (k k' : String) (hne : k' ≠ k) (v : Json) :
    ∀ l : List (String × Json), (l ++ [(k, v)]).lookup k' = l.lookup k' := by
  intro l
  induction l with
  | nil =>
      simp only [List.nil_append, List.lookup]
      rw [beq_eq_false_iff_ne.mpr hne]
  | cons p rest ih =>
      obtain ⟨a, b⟩ := p
      simp only [List.cons_append, List.lookup]
      cases hab : k' == a
      · exact ih
      · rfl

theorem getField_addKey (k : String) (v : Json) (j : Json) (k' : String)
    (hne : k' ≠ k) : getField (addKey k v j) k' = getField j k' := by
  cases j with
  | obj fields => exact lookup_append_ne k k' hne v fields
  | null => rfl
  | bool b => rfl
  | num n => rfl
  | str t => rfl
  | arr items => rfl

theorem tagIs_addKey (k : String) (v : Json) (j : Json) (t : String)
    (hne : "type" ≠ k) : tagIs (addKey k v j) t = tagIs j t := by
  unfold tagIs
  rw [getField_addKey k v j "type" hne]

theorem parseEntity_addKey (k : String) (v : Json) (j : Json)
    (h1 : "name" ≠ k) (h2 : "entityType" ≠ k) (h3 : "observations" ≠ k) :
    parseEntity (addKey k v j) = parseEntity j := by
  unfold parseEntity
  rw [getField_addKey k v j "name" h1, getField_addKey k v j "entityType" h2,
    getField_addKey k v j "observations" h3]

theorem parseRelation_addKey (k : String) (v : Json) (j : Json)
    (h1 : "from" ≠ k) (h2 : "to" ≠ k) (h3 : "relationType" ≠ k) :
    parseRelation (addKey k v j) = parseRelation j := by
  unfold parseRelation
  rw [getField_addKey k v j "from" h1, getField_addKey k v j "to" h2,
    getField_addKey k v j "relationType" h3]

theorem collect_map_addKey (k : String) (v : Json) (htype : "type" ≠ k) :
    ∀ s : List Json,
      collect (s.map (addKey k v))
        = ((collect s).1.map (addKey k v), (collect s).2.map (addKey k v)) := by
  intro s
  induction s with
  | nil => rfl
  | cons a rest ih =>
      simp only [List.map_cons]
      rw [collect_cons, collect_cons, ih, tagIs_addKey k v a "entity" htype,
        tagIs_addKey k v a "relation" htype]
      by_cases h1 : tagIs a "entity" = true
      · simp [h1]
      · by_cases h2 : tagIs a "relation" = true <;> simp [h1, h2]

theorem parseEntities_map_addKey (k : String) (v : Json)
    (h1 : "name" ≠ k) (h2 : "entityType" ≠ k) (h3 : "observations" ≠ k) :
    ∀ l : List Json, parseEntities (l.map (addKey k v)) = parseEntities l := by
  intro l
  induction l with
  | nil => rfl
  | cons a rest ih =>
      simp only [List.map_cons]
      unfold parseEntities
      rw [parseEntity_addKey k v a h1 h2 h3, ih]

theorem parseRelations_map_addKey (k : String) (v : Json)
    (h1 : "from" ≠ k) (h2 : "to" ≠ k) (h3 : "relationType" ≠ k) :
    ∀ l : List Json, parseRelations (l.map (addKey k v)) = parseRelations l := by
  intro l
  induction l with
  | nil => rfl
  | cons a rest ih =>
      simp only [List.map_cons]
      unfold parseRelations
      rw [parseRelation_addKey k v a h1 h2 h3, ih]

/-- C10: schema validation strips keys outside the declared shapes, so
appending any extra key (in particular, keeping the `type` discriminator
around) to every stored record changes nothing about the graph handed to
`readGraph`, `searchNodes`, or `openNodes`; the parsed entities and relations
consist of exactly the declared fields. -/
theorem loadGraph_strips_extra_keys (s : List Json) (k : String) (v : Json)
    (hk : k ∉ (["type", "name", "entityType", "observations",
                "from", "to", "relationType"] : List String)) :
    loadGraph (s.map (addKey k v)) = loadGraph s ∧
    readGraph (s.map (addKey k v)) = readGraph s ∧
    (∀ q, searchNodes (s.map (addKey k v)) q = searchNodes s q) ∧
    (∀ ns, openNodes (s.map (addKey k v)) ns = openNodes s ns) := by
  simp only [List.mem_cons, not_or] at hk
  obtain ⟨hk1, hk2, hk3, hk4, hk5, hk6, hk7, _⟩ := hk
  have hload : loadGraph (s.map (addKey k v)) = loadGraph s := by
    rw [loadGraph_eq, loadGraph_eq,
      collect_map_addKey k v (Ne.symm hk1) s]
    show (match parseEntities ((collect s).1.map (addKey k v)),
        parseRelations ((collect s).2.map (addKey k v)) with
      | some es, some rs => (Except.ok ⟨es, rs⟩ : Except KGError KnowledgeGraph)
      | _, _ => Except.error KGError.validation)
      = (match parseEntities (collect s).1, parseRelations (collect s).2 with
      | some es, some rs => (Except.ok ⟨es, rs⟩ : Except KGError KnowledgeGraph)
      | _, _ => Except.error KGError.validation)
    rw [parseEntities_map_addKey k v (Ne.symm hk2) (Ne.symm hk3) (Ne.symm hk4),
      parseRelations_map_addKey k v (Ne.symm hk5) (Ne.symm hk6) (Ne.symm hk7)]
  refine ⟨hload, hload, ?_, ?_⟩
  · intro q
    unfold searchNodes
    rw [hload]
  · intro ns
    unfold openNodes
    rw [hload]

/-- Witness for C10: appending an `"extra"` key to the stored record of
entity `A` leaves every read operation's result unchanged. -/
theorem loadGraph_strips_extra_keys_witness :
    loadGraph ([entityRecord ⟨"A", "t", []⟩].map (addKey "extra" (Json.str "x")))
      = loadGraph [entityRecord ⟨"A", "t", []⟩] ∧
    readGraph ([entityRecord ⟨"A", "t", []⟩].map (addKey "extra" (Json.str "x")))
      = readGraph [entityRecord ⟨"A", "t", []⟩] ∧
    (∀ q, searchNodes
        ([entityRecord ⟨"A", "t", []⟩].map (addKey "extra" (Json.str "x"))) q
      = searchNodes [entityRecord ⟨"A", "t", []⟩] q) ∧
    (∀ ns, openNodes
        ([entityRecord ⟨"A", "t", []⟩].map (addKey "extra" (Json.str "x"))) ns
      = openNodes [entityRecord ⟨"A", "t", []⟩] ns) :=
  loadGraph_strips_extra_keys [entityRecord ⟨"A", "t", []⟩] "extra" (Json.str "x")
    (by decide)

end KG
